import Mathlib

/-!
Verification development for the Fritzing importer (a Blender add-on that
places Fritzing part geometry from `.fzpz` / `.fzp` descriptors).

The Python sources `src/lib/fzp_parser.py` and `src/importer.py` are embedded
shallowly below:

* Python floats are modelled as exact rationals (`ℚ`); the numeric literals
  exercised by the importer are short decimal strings, for which rational
  arithmetic agrees with IEEE semantics on the structural properties proved
  here (which tokens contribute, in which order, with which formula).
* Python `None` becomes `Option.none`; Python string truthiness (`if s:`,
  `a or b`) is modelled explicitly by `truthyS` / `strOr`, since the source
  relies on empty strings being falsy.
* `float(...)` is modelled by `parseFloat`, a parser for the decimal subset
  Python accepts (optional sign, digits with one optional point, optional
  exponent, surrounding blanks); the special forms `inf` / `nan` and digit
  group underscores are outside every behaviour claimed here.
* Exceptions caught by the source become `Option` / `Except` values.
* Host (Blender) collaborators and the XML well-formedness judgement of
  `xml.etree.ElementTree` are parameters of the embedding, per the interface
  contracts of the specification.
-/

namespace Fzp

/-- Python truthiness of an optional string: `None` and the empty string are
falsy, every other string is truthy. -/
def truthyS : Option String → Bool
  | Option.none => false
  | some s => s ≠ ""

/-- Python `a or b` on optional strings: keeps `a` when truthy, otherwise
yields `b` (which may itself be `None` or empty). -/
def strOr (a b : Option String) : Option String :=
  if truthyS a then a else b

/-- Python `a or b` on optional lists (`dict.get` results): an absent key and
an empty list are both falsy. -/
def listOr {α : Type} (a b : Option (List α)) : Option (List α) :=
  match a with
  | Option.none => b
  | some l => if l.isEmpty then b else some l

/-- Characters the regex class `\s` (and Python `str.strip`) treats as blank. -/
def isPySpace (c : Char) : Bool :=
  c = ' ' || c = '\t' || c = '\n' || c = '\r' || c = '\x0b' || c = '\x0c'

/-- Python `s.split(c)` for a one-character separator: never empty, splits at
every separator occurrence, keeping empty parts. -/
def splitOnChar (c : Char) : List Char → List (List Char)
  | [] => [[]]
  | d :: rest =>
    match splitOnChar c rest with
    | [] => if d = c then [[], []] else [[d]]
    | h :: t => if d = c then [] :: h :: t else (d :: h) :: t

/-- Python `s.strip()` restricted to the blank characters of `isPySpace`. -/
def pyStrip (cs : List Char) : List Char :=
  ((cs.dropWhile isPySpace).reverse.dropWhile isPySpace).reverse

/-- ASCII lower-casing of one character (the filenames and tags the importer
compares are ASCII). -/
def pyLowerChar (c : Char) : Char :=
  if 'A' ≤ c && c ≤ 'Z' then Char.ofNat (c.toNat + 32) else c

/-- Python `s.lower()` on ASCII text. -/
def pyLower (s : String) : String :=
  String.mk (s.toList.map pyLowerChar)

/-- Python `s.endswith(suffix)`. -/
def pyEndsWith (s suffix : String) : Bool :=
  suffix.toList.isSuffixOf s.toList

/-- Python `os.path.basename` on forward-slash paths (the form zip entry
names use). -/
def pyBasename (s : String) : String :=
  String.mk ((splitOnChar '/' s.toList).getLastD [])

/-- Value of a digit run, most significant first. -/
def digitsToNat (l : List Char) : Nat :=
  l.foldl (fun a c => a * 10 + (c.toNat - 48)) 0

/-- Exponent part after `e`/`E`: optional sign then at least one digit,
consuming the whole remainder. -/
def parseExpPart (cs : List Char) : Option Int :=
  let (sgn, ds) : Int × List Char :=
    match cs with
    | '+' :: r => (1, r)
    | '-' :: r => (-1, r)
    | r => (1, r)
  if ds.isEmpty || !ds.all Char.isDigit then Option.none
  else some (sgn * (digitsToNat ds : Int))

/-- Mantissa: digits with at most one decimal point, at least one digit in
total; returns the digit value, the number of fractional digits and the
unconsumed remainder. -/
def parseMantissaRepr (cs : List Char) : Option ((Nat × Nat) × List Char) :=
  let intPart := cs.takeWhile Char.isDigit
  let rest := cs.dropWhile Char.isDigit
  match rest with
  | '.' :: r2 =>
    let frac := r2.takeWhile Char.isDigit
    let rest2 := r2.dropWhile Char.isDigit
    if intPart.isEmpty && frac.isEmpty then Option.none
    else some ((digitsToNat (intPart ++ frac), frac.length), rest2)
  | _ =>
    if intPart.isEmpty then Option.none
    else some ((digitsToNat intPart, 0), rest)

/-- Digit-level representation of a finite decimal literal: signed mantissa
`m`, count `k` of fractional digits, decimal exponent `e`. -/
def parseFloatCore (cs0 : List Char) : Option (Int × Nat × Int) :=
  let cs := pyStrip cs0
  let (sgn, cs1) : Int × List Char :=
    match cs with
    | '+' :: r => (1, r)
    | '-' :: r => (-1, r)
    | r => (1, r)
  match parseMantissaRepr cs1 with
  | Option.none => Option.none
  | some ((mv, k), rest) =>
    match rest with
    | [] => some (sgn * (mv : Int), k, 0)
    | 'e' :: r => (parseExpPart r).map (fun ex => (sgn * (mv : Int), k, ex))
    | 'E' :: r => (parseExpPart r).map (fun ex => (sgn * (mv : Int), k, ex))
    | _ => Option.none

/-- Rational value of the decimal literal `m / 10^k * 10^e`. -/
def decimalToRat (m : Int) (k : Nat) (e : Int) : ℚ :=
  (m : ℚ) / (10 : ℚ) ^ k * (10 : ℚ) ^ e

/-- Model of Python `float(s)` on the finite decimal forms the importer meets:
surrounding blanks stripped, optional sign, mantissa, optional exponent.
Returns `Option.none` where `float` raises `ValueError`. -/
def parseFloat (s : String) : Option ℚ :=
  (parseFloatCore s.toList).map (fun r => decimalToRat r.1 r.2.1 r.2.2)

/-- Components of a position string: split on commas, strip each part, keep
the nonempty ones (the list comprehension filter of the source). -/
def positionComponents (s : String) : List String :=
  (((splitOnChar ',' s.toList).map (fun p => String.mk (pyStrip p))).filter
    (fun p => p ≠ ""))

/-- Left-to-right float conversion of the kept components: the comprehension
raises at the first failing conversion, so the whole list is all-or-nothing. -/
def floatsOf : List String → Option (List ℚ)
  | [] => some []
  | p :: rest =>
    match parseFloat p, floatsOf rest with
    | some v, some vs => some (v :: vs)
    | _, _ => Option.none

/-- Embedding of `fzp_parser.parse_position_string`: split on commas, strip
each part, keep the nonempty ones, convert each to a float (any failure is the
caught exception), then demand two or at-least-three numbers. -/
def parse_position_string : Option String → Option (ℚ × ℚ × ℚ)
  | Option.none => Option.none
  | some s =>
    match floatsOf (positionComponents s) with
    | Option.none => Option.none
    | some nums =>
      match nums with
      | [a, b] => some (a, b, 0)
      | a :: b :: c :: _ => some (a, b, c)
      | _ => Option.none

/-! ### Transform strings (`fzp_parser.parse_transform_string`)

The source finds every match of the regex
`(translate|rotate|scale)\s*\(([^)]+)\)` in order and folds the matches into
a cumulative result. The scanner below reproduces the regex search; each
match is a pair of function name and raw argument text. -/

/-- Result record of `parse_transform_string`. -/
structure TransformResult where
  translate : Option (ℚ × ℚ)
  rotate : Option ℚ
  scale : Option ℚ
deriving DecidableEq

/-- The three function names the regex alternation recognizes (their first
characters differ, so alternation order never matters). -/
def matchKeyword (cs : List Char) : Option (String × List Char) :=
  if "translate".toList.isPrefixOf cs then some ("translate", cs.drop 9)
  else if "rotate".toList.isPrefixOf cs then some ("rotate", cs.drop 6)
  else if "scale".toList.isPrefixOf cs then some ("scale", cs.drop 5)
  else Option.none

/-- Matching one regex occurrence at the current position: keyword, optional
blanks, an opening bracket, at least one non-bracket character, a closing
bracket. -/
def tryMatch (cs : List Char) : Option (String × String × List Char) :=
  match matchKeyword cs with
  | Option.none => Option.none
  | some (fn, r) =>
    match r.dropWhile isPySpace with
    | '(' :: r2 =>
      let args := r2.takeWhile (fun c => c ≠ ')')
      match r2.dropWhile (fun c => c ≠ ')') with
      | ')' :: r3 => if args.isEmpty then Option.none else some (fn, String.mk args, r3)
      | _ => Option.none
    | _ => Option.none

/-- Left-to-right non-overlapping regex search; the fuel argument only bounds
the scan (each step consumes at least one character, so an initial fuel of
the text length is enough). -/
def scanAux : Nat → List Char → List (String × String)
  | 0, _ => []
  | _ + 1, [] => []
  | n + 1, c :: cs =>
    match tryMatch (c :: cs) with
    | some (fn, args, rest) => (fn, args) :: scanAux n rest
    | Option.none => scanAux n cs

/-- Every regex match of a transform string, in order. -/
def findMatches (s : String) : List (String × String) :=
  scanAux s.toList.length s.toList

/-- Argument words: the source splits the stripped argument text with
`re.split` on runs of commas and blanks and keeps the nonempty parts, which
is exactly the list of maximal runs of non-separator characters. -/
def wordsByAux (p : Char → Bool) : List Char → List Char → List String
  | [], acc => if acc.isEmpty then [] else [String.mk acc.reverse]
  | c :: cs, acc =>
    if p c then
      if acc.isEmpty then wordsByAux p cs [] else String.mk acc.reverse :: wordsByAux p cs []
    else wordsByAux p cs (c :: acc)

/-- Argument words of one regex match. -/
def argWords (s : String) : List String :=
  wordsByAux (fun c => c = ',' || isPySpace c) s.toList []

/-- Body of the `translate` branch: x from the first word (default 0), y from
the second (default 0); a failed conversion raises and the token is skipped. -/
def translateTok (args : String) : Option (ℚ × ℚ) :=
  match argWords args with
  | [] => some (0, 0)
  | [a] => (parseFloat a).map (fun x => (x, 0))
  | a :: b :: _ =>
    match parseFloat a, parseFloat b with
    | some x, some y => some (x, y)
    | _, _ => Option.none

/-- Body of the `rotate` branch: only the first word is converted (default 0);
the centre words are ignored and never converted. -/
def rotateTok (args : String) : Option ℚ :=
  match argWords args with
  | [] => some 0
  | a :: _ => parseFloat a

/-- Body of the `scale` branch: sx from the first word (default 1), sy from
the second (default sx). The source converts sy too, so a malformed second
word skips the token even though only sx is used. -/
def scaleTok (args : String) : Option ℚ :=
  match argWords args with
  | [] => some 1
  | [a] => parseFloat a
  | a :: b :: _ =>
    match parseFloat a, parseFloat b with
    | some x, some _ => some x
    | _, _ => Option.none

/-- One iteration of the match loop: translation accumulates, rotation is
overwritten, scale multiplies; a token whose conversion raises is skipped. -/
def applyTok (st : TransformResult) (m : String × String) : TransformResult :=
  if m.1 = "translate" then
    match translateTok m.2 with
    | Option.none => st
    | some (x, y) =>
      let t :=
        match st.translate with
        | Option.none => (x, y)
        | some (a, b) => (a + x, b + y)
      { st with translate := some t }
  else if m.1 = "rotate" then
    match rotateTok m.2 with
    | Option.none => st
    | some a => { st with rotate := some a }
  else if m.1 = "scale" then
    match scaleTok m.2 with
    | Option.none => st
    | some sx =>
      let v :=
        match st.scale with
        | Option.none => sx
        | some s => s * sx
      { st with scale := some v }
  else st

/-- The match-loop fold, starting from the all-`None` result. -/
def foldTokens (ms : List (String × String)) : TransformResult :=
  ms.foldl applyTok ⟨Option.none, Option.none, Option.none⟩

/-- Embedding of `fzp_parser.parse_transform_string`: an absent or empty
(falsy) input yields the all-`None` result, otherwise the regex matches are
folded. -/
def parse_transform_string (s : Option String) : TransformResult :=
  if truthyS s then foldTokens (findMatches (s.getD ""))
  else ⟨Option.none, Option.none, Option.none⟩

/-! ### Parsed XML documents (`xml.etree.ElementTree` trees)

An element is a tag, an attribute mapping and the ordered child elements (the
importer never reads text content except for the scene title, which no claim
touches). Well-formedness of raw text is judged by the external XML library,
modelled as a `fromstring` parameter that either returns the root element or
raises `ParseError`. -/

/-- The `xml.etree.ElementTree.ParseError` exception. -/
structure ParseFailure where
  message : String
deriving DecidableEq

/-- One parsed XML element. -/
inductive Element where
  | mk : String → List (String × String) → List Element → Element

/-- Tag name. -/
def Element.tag : Element → String
  | .mk t _ _ => t

/-- Attribute list, in document order. -/
def Element.attrs : Element → List (String × String)
  | .mk _ a _ => a

/-- Child elements, in document order. -/
def Element.children : Element → List Element
  | .mk _ _ c => c

/-- `element.get(key)`: the attribute's value, or `None` when absent. -/
def Element.get (e : Element) (k : String) : Option String :=
  ((e.attrs).find? (fun p => p.1 == k)).map (fun p => p.2)

mutual

/-- One element together with all its descendants, in document (preorder)
order. -/
def descSelf : Element → List Element
  | Element.mk t a cs => Element.mk t a cs :: descList cs

/-- All elements of a list together with their descendants, in document
(preorder) order. -/
def descList : List Element → List Element
  | [] => []
  | e :: rest => descSelf e ++ descList rest

end

/-- `element.findall('.//tag')`: every descendant with the given tag, in
document order (the element itself is not a candidate). -/
def findall (e : Element) (t : String) : List Element :=
  (descList e.children).filter (fun d => d.tag == t)

/-- Embedding of `fzp_parser.parse_fzp_xml_string`: the external parse is
attempted and `ParseError` is caught, becoming an absent result. -/
def parse_fzp_xml_string (fromstring : String → Except ParseFailure Element)
    (text : String) : Option Element :=
  match fromstring text with
  | Except.ok root => some root
  | Except.error _ => Option.none

/-! ### Module and pin extraction
(`fzp_parser.extract_modules_and_pins_from_fzp_string`) -/

/-- One extracted pin record. -/
structure PinRecord where
  pid : String
  px : ℚ
  py : ℚ
  pz : ℚ
  rotation : Option ℚ
deriving DecidableEq

/-- One extracted module record. -/
structure ModuleRecord where
  module_id : String
  file : String
  pins : List PinRecord

/-- Tag test used for the nested `<position>` fallback:
`c.tag.lower().endswith('position')`. -/
def tagIsPosition (t : String) : Bool :=
  pyEndsWith (pyLower t) "position"

/-- Pin coordinates before conversion: either still raw attribute strings or
the floats produced by a successful `position` attribute parse. -/
inductive RawXYZ where
  | strs (x y z : Option String)
  | nums (x y z : ℚ)

/-- First resolution step for a pin: `x`/`cx`, `y`/`cy` and `z` attributes,
with Python `or` falling through empty strings. -/
def pinAttrXYZ (e : Element) : Option String × Option String × Option String :=
  (strOr (e.get "x") (e.get "cx"), strOr (e.get "y") (e.get "cy"), e.get "z")

/-- Second step: when x or y is `None` and a truthy `position` attribute is
present, a successful position parse replaces all three coordinates with
floats (a failed parse leaves the strings unchanged). -/
def pinAfterPos (e : Element) : RawXYZ :=
  let (x, y, z) := pinAttrXYZ e
  if (x.isNone || y.isNone) && truthyS (e.get "position") then
    match parse_position_string (e.get "position") with
    | some (a, b, c) => RawXYZ.nums a b c
    | Option.none => RawXYZ.strs x y z
  else RawXYZ.strs x y z

/-- Third step: the loop over direct children whose tag ends in `position`;
a child with truthy x and y fills in whichever coordinates are still falsy
(`x = x or px`, `y = y or py`, `z = z or child z`). -/
def childScan : List Element → Option String × Option String × Option String →
    Option String × Option String × Option String
  | [], s => s
  | c :: rest, (x, y, z) =>
    if tagIsPosition c.tag then
      let px := strOr (c.get "x") (c.get "cx")
      let py := strOr (c.get "y") (c.get "cy")
      if truthyS px && truthyS py then
        childScan rest (strOr x px, strOr y py, strOr z (c.get "z"))
      else childScan rest (x, y, z)
    else childScan rest (x, y, z)

/-- Raw pin coordinates after all three resolution steps (the child loop only
runs while x or y is still `None`). -/
def pinRawXYZ (e : Element) : RawXYZ :=
  match pinAfterPos e with
  | RawXYZ.nums a b c => RawXYZ.nums a b c
  | RawXYZ.strs x y z =>
    if x.isNone || y.isNone then
      let (x', y', z') := childScan e.children (x, y, z)
      RawXYZ.strs x' y' z'
    else RawXYZ.strs x y z

/-- `float(v)` on a coordinate that may be absent; the outer `Option` is the
exception. -/
def floatOfOpt : Option String → Option (Option ℚ)
  | Option.none => some Option.none
  | some s => (parseFloat s).map some

/-- Float conversion of the pin coordinates: one `try` block converts all
three, so any failure yields `(None, None, 0.0)`. A successful `position`
parse already holds floats and cannot raise. -/
def pinFloats (e : Element) : Option ℚ × Option ℚ × ℚ :=
  match pinRawXYZ e with
  | RawXYZ.nums a b c => (some a, some b, c)
  | RawXYZ.strs x y z =>
    let fz : Option ℚ :=
      match z with
      | Option.none => some 0
      | some s => parseFloat s
    match floatOfOpt x, floatOfOpt y, fz with
    | some fx, some fy, some v => (fx, fy, v)
    | _, _, _ => (Option.none, Option.none, 0)

/-- Application of a truthy `transform` attribute to resolved pin floats: only
the cumulative translation is used; rotate and scale components of the
transform string are never read. Unresolved coordinates pass through. -/
def pinApplyTransform (e : Element) : Option ℚ × Option ℚ × ℚ → Option ℚ × Option ℚ × ℚ
  | (some a, some b, fz) =>
    if truthyS (e.get "transform") then
      match (parse_transform_string (e.get "transform")).translate with
      | some (tx, ty) => (some (a + tx), some (b + ty), fz)
      | Option.none => (some a, some b, fz)
    else (some a, some b, fz)
  | v => v

/-- Pin coordinates after the optional `transform` attribute. -/
def pinWithTransform (e : Element) : Option ℚ × Option ℚ × ℚ :=
  pinApplyTransform e (pinFloats e)

/-- Pin id: first truthy of `id`, `name`, `index`, `label`, else the empty
string. -/
def pinId (e : Element) : String :=
  (strOr (strOr (strOr (e.get "id") (e.get "name")) (e.get "index")) (e.get "label")).getD ""

/-- Pin rotation: `rotation` or `angle` attribute converted to float, `None`
on absence or a caught conversion failure. -/
def pinRotation (e : Element) : Option ℚ :=
  match strOr (e.get "rotation") (e.get "angle") with
  | Option.none => Option.none
  | some s => parseFloat s

/-- One pin-like element's record: appended only when both x and y resolved
to numbers, silently dropped otherwise. -/
def resolvePin (e : Element) : Option PinRecord :=
  match pinWithTransform e with
  | (some a, some b, c) => some ⟨pinId e, a, b, c, pinRotation e⟩
  | _ => Option.none

/-- Module file reference: first truthy of `file`, `url`, else empty. -/
def moduleFile (m : Element) : String :=
  (strOr (m.get "file") (m.get "url")).getD ""

/-- Module id: first truthy of `id`, `name`, else the file reference. -/
def moduleId (m : Element) : String :=
  (strOr (strOr (m.get "id") (m.get "name")) (some (moduleFile m))).getD ""

/-- Pin-like children of one module: the three searches are pooled in the
fixed order pin, pad, connector (each group in document order). -/
def pinCandidates (m : Element) : List Element :=
  findall m "pin" ++ findall m "pad" ++ findall m "connector"

/-- Pin records of one module. -/
def modulePins (m : Element) : List PinRecord :=
  (pinCandidates m).filterMap resolvePin

/-- Record of one module element. -/
def moduleOf (m : Element) : ModuleRecord :=
  ⟨moduleId m, moduleFile m, modulePins m⟩

/-- Embedding of `fzp_parser.extract_modules_and_pins_from_fzp_string`: an
unparseable text yields the empty module list. -/
def extract_modules_and_pins (fromstring : String → Except ParseFailure Element)
    (xml_text : String) : List ModuleRecord :=
  match parse_fzp_xml_string fromstring xml_text with
  | Option.none => []
  | some root => (findall root "module").map moduleOf

/-! ### Module transforms (`importer._get_transform_from_module`) -/

/-- Nested-child loop of the module transform: like the pin loop but without
the z update. -/
def moduleChildScan : List Element → Option String × Option String × Option String →
    Option String × Option String × Option String
  | [], s => s
  | c :: rest, (x, y, z) =>
    if tagIsPosition c.tag then
      let cx := strOr (c.get "x") (c.get "cx")
      let cy := strOr (c.get "y") (c.get "cy")
      if truthyS cx && truthyS cy then moduleChildScan rest (strOr x cx, strOr y cy, z)
      else moduleChildScan rest (x, y, z)
    else moduleChildScan rest (x, y, z)

/-- First resolution steps for a module: `x`/`cx`, `y`/`cy`, `z` attributes;
then, when `not (x and y)` (truthiness, not a `None` test) and a truthy
`position` attribute exists, its raw comma-split parts overwrite x and y (and
z when a third part exists) without float validation; finally the nested
`position`-tagged child loop fills coordinates still falsy while x or y is
`None` (this loop does not touch z). -/
def moduleRawXYZ (e : Element) : Option String × Option String × Option String :=
  let x := strOr (e.get "x") (e.get "cx")
  let y := strOr (e.get "y") (e.get "cy")
  let z := e.get "z"
  let afterPos : Option String × Option String × Option String :=
    if !(truthyS x && truthyS y) && truthyS (e.get "position") then
      match (splitOnChar ',' ((e.get "position").getD "").toList).map
          (fun p => String.mk (pyStrip p)) with
      | p0 :: p1 :: p2 :: _ => (some p0, some p1, some p2)
      | [p0, p1] => (some p0, some p1, z)
      | _ => (x, y, z)
    else (x, y, z)
  match afterPos with
  | (x1, y1, z1) =>
    if x1.isNone || y1.isNone then moduleChildScan e.children (x1, y1, z1)
    else (x1, y1, z1)

/-- Float conversion of the module coordinates: one `try` block converts all
three, so any failure yields `(None, None, 0.0)`. -/
def moduleFloats (e : Element) : Option ℚ × Option ℚ × ℚ :=
  match moduleRawXYZ e with
  | (x, y, z) =>
    let fz : Option ℚ :=
      match z with
      | Option.none => some 0
      | some s => parseFloat s
    match floatOfOpt x, floatOfOpt y, fz with
    | some lx, some ly, some v => (lx, ly, v)
    | _, _, _ => (Option.none, Option.none, 0)

/-- Module rotation: `rotation` or `angle` attribute, `None` on absence or a
caught conversion failure. -/
def moduleRotation (e : Element) : Option ℚ :=
  match strOr (e.get "rotation") (e.get "angle") with
  | Option.none => Option.none
  | some s => parseFloat s

/-- Position and rotation of a module before the `transform` attribute is
applied; `None` when x or y did not resolve to a number. -/
def moduleBase (e : Element) : Option ((ℚ × ℚ × ℚ) × Option ℚ) :=
  match moduleFloats e with
  | (some lx, some ly, lz) => some ((lx, ly, lz), moduleRotation e)
  | _ => Option.none

/-- Application of a truthy `transform` attribute to a resolved module
transform: the cumulative translation is added and a present rotation
replaces the attribute rotation. -/
def applyTransformAttr (e : Element) : (ℚ × ℚ × ℚ) × Option ℚ → (ℚ × ℚ × ℚ) × Option ℚ
  | ((lx, ly, lz), rot) =>
    if truthyS (e.get "transform") then
      let t := parse_transform_string (e.get "transform")
      let p :=
        match t.translate with
        | some (tx, ty) => (lx + tx, ly + ty)
        | Option.none => (lx, ly)
      let r :=
        match t.rotate with
        | some a => some a
        | Option.none => rot
      ((p.1, p.2, lz), r)
    else ((lx, ly, lz), rot)

/-- Embedding of `importer._get_transform_from_module`: base resolution (with
its `None` early return), then the optional `transform` attribute. -/
def get_transform_from_module (e : Element) : Option ((ℚ × ℚ × ℚ) × Option ℚ) :=
  (moduleBase e).map (applyTransformAttr e)

/-! ### Archive operations (`fzp_parser.list_zip_contents`,
`fzp_parser.extract_files_by_extensions`)

A filesystem path is modelled by what `zipfile` can read from it: `none`
when `zipfile.is_zipfile` is false, otherwise the ordered list of
`(entry name, entry bytes)` pairs. The scratch directory fresh to one call
is modelled as the empty prefix, so an extracted destination is the entry
basename; the scratch filesystem is a write log, reading gives the last
write. -/

/-- The `RuntimeError` the archive helpers raise. -/
structure RuntimeFailure where
  message : String
deriving DecidableEq

/-- An archive: entry names with their contents, in archive order. -/
abbrev ZipArchive := List (String × String)

/-- Embedding of `fzp_parser.list_zip_contents`. -/
def list_zip_contents : Option ZipArchive → Except RuntimeFailure (List String)
  | Option.none => Except.error ⟨"Not a zip file"⟩
  | some z => Except.ok (z.map (fun e => e.1))

/-- Extension test of the extraction loop:
`any(name.lower().endswith(ext) for ext in extensions)`. -/
def matchesExt (exts : List String) (name : String) : Bool :=
  exts.any (fun ext => pyEndsWith (pyLower name) ext)

/-- The extraction fold: the mapping from entry name to destination, and the
write log of the scratch directory (`dict` assignment is an appended binding,
lookup takes the last one). -/
def extractState (z : ZipArchive) (exts : List String) :
    List (String × String) × List (String × String) :=
  z.foldl
    (fun st entry =>
      if matchesExt exts entry.1 then
        (st.1 ++ [(entry.1, pyBasename entry.1)], st.2 ++ [(pyBasename entry.1, entry.2)])
      else st)
    ([], [])

/-- Embedding of `fzp_parser.extract_files_by_extensions`: raises on a
non-zip path, otherwise returns the name-to-destination mapping together
with the scratch write log. -/
def extract_files_by_extensions (p : Option ZipArchive) (exts : List String) :
    Except RuntimeFailure (List (String × String) × List (String × String)) :=
  match p with
  | Option.none => Except.error ⟨"Not a zip file"⟩
  | some z => Except.ok (extractState z exts)

/-- Last binding of a key in an association log (Python `dict` lookup under
repeated assignment, and reading a scratch file after repeated writes). -/
def lastBinding (d : List (String × String)) (k : String) : Option String :=
  (d.reverse.find? (fun p => p.1 == k)).map (fun p => p.2)

/-! ### Placement (`importer.import_fzp_from_zip`, lines 347-400)

The host collaborators are abstracted per the external-interface contracts:
`_duplicate_object` (whose body is not part of the repository's files) is
the spec's `duplicate(handle) -> new handle`, always yielding a handle, and
`_apply_transform_to_object` is `set_transform`. The embedding records, for
every duplicate, the module index, the index of its base-geometry handle and
the location/rotation passed to `set_transform`. -/

/-- One placement instruction, as handed to the host. -/
structure Placement where
  moduleIdx : Nat
  baseIdx : Nat
  key : String
  loc : ℚ × ℚ × ℚ
  rot : Option ℚ
deriving DecidableEq

/-- Per-step z offset: `z_step` itself in Blender-units mode, else
`z_step * placement_scale`; a truthy (nonzero) `min_z_step` bumps a smaller
step up to itself. -/
def stepVal (z_step placement_scale min_z_step : ℚ) (blender : Bool) : ℚ :=
  let s := if blender then z_step else z_step * placement_scale
  if min_z_step ≠ 0 && s < min_z_step then min_z_step else s

/-- Lowercased basename key a module's file reference is joined on. -/
def moduleKey (mod : Element) : String :=
  pyLower (pyBasename ((strOr (mod.get "file") (mod.get "url")).getD ""))

/-- Python `dict.get` on a map whose values are handle lists. -/
def lastBinding2 (d : List (String × List String)) (k : String) : Option (List String) :=
  (d.reverse.find? (fun p => p.1 == k)).map (fun p => p.2)

/-- Placement instructions one module contributes: skip on a falsy file
reference, an unresolved transform, or an empty geometry lookup; otherwise
one duplicate per base handle, at the scaled location with the module-level
and per-duplicate z offsets (the step value is recomputed identically inside
the inner loop). -/
def placeModule (models svgs : List (String × List String)) (s t m : ℚ)
    (blender : Bool) (idx : Nat) (mod : Element) : List Placement :=
  if !truthyS (strOr (mod.get "file") (mod.get "url")) then []
  else
    match get_transform_from_module mod with
    | Option.none => []
    | some ((mx, my, mz), rot) =>
      match listOr (lastBinding2 models (moduleKey mod)) (lastBinding2 svgs (moduleKey mod)) with
      | Option.none => []
      | some bl =>
        if bl.isEmpty then []
        else
          (List.range bl.length).map (fun bi =>
            { moduleIdx := idx, baseIdx := bi, key := moduleKey mod,
              loc := (mx * s, my * s,
                mz * s + (idx : ℚ) * stepVal t s m blender + (bi : ℚ) * stepVal t s m blender),
              rot := rot })

/-- The `enumerate` loop over every module of a descriptor: indices count all
modules and are not renumbered after skips. -/
def placeList (models svgs : List (String × List String)) (s t m : ℚ)
    (blender : Bool) : Nat → List Element → List Placement
  | _, [] => []
  | i, e :: rest =>
    placeModule models svgs s t m blender i e ++
      placeList models svgs s t m blender (i + 1) rest

/-- All placement instructions of one descriptor root. -/
def placeFromRoot (root : Element) (models svgs : List (String × List String))
    (s t m : ℚ) (blender : Bool) : List Placement :=
  placeList models svgs s t m blender 0 (findall root "module")

/-- Geometry map built from extracted files: per extracted `(source, dest)`
pair the host imports `dest` and reports the objects it created; an empty
report is skipped, otherwise the lowercased basename of the source maps to
the created handles. -/
def buildMap (extracted : List (String × String)) (host : String → List String) :
    List (String × List String) :=
  extracted.foldl
    (fun acc sd =>
      let objs := host sd.2
      if objs.isEmpty then acc else acc ++ [(pyLower (pyBasename sd.1), objs)])
    []

/-- Embedding of `importer.import_fzp_from_zip` down to the placement
instructions it issues: raises on a non-zip path; otherwise builds the model
and vector-art maps from the extracted entries via the host importers, then
for every `.fzp` entry parses its bytes and, when placement is enabled,
emits the placement instructions of its module list. Join, pin creation and
the boolean pass happen after the recorded `set_transform` calls and do not
change them. -/
def import_fzp_from_zip (fromstring : String → Except ParseFailure Element)
    (hostModel hostSvg : String → List String) (p : Option ZipArchive)
    (use_placement : Bool) (s t m : ℚ) (blender : Bool) :
    Except RuntimeFailure (List Placement) :=
  match p with
  | Option.none => Except.error ⟨"Not a zip archive"⟩
  | some z =>
    let models := buildMap (extractState z [".obj", ".stl"]).1 hostModel
    let svgs := buildMap (extractState z [".svg"]).1 hostSvg
    let fzps := (z.map (fun e => e.1)).filter (fun n => pyEndsWith (pyLower n) ".fzp")
    Except.ok
      (if use_placement then
        fzps.foldl
          (fun acc n =>
            match lastBinding z n with
            | Option.none => acc
            | some content =>
              match parse_fzp_xml_string fromstring content with
              | Option.none => acc
              | some root => acc ++ placeFromRoot root models svgs s t m blender)
          []
      else [])

/-! ### Overlap-avoidance pass (`importer._apply_boolean_cut`)

Scene objects are modelled by name, world z and type tag. Host failures
(any exception inside one loop iteration) are an oracle on the iteration
index; the embedding returns the list of completed subtractions, each a
target paired with the cutters merged for it. The single `try` of the source
wraps the whole loop, so the function itself never raises. -/

/-- One placed scene object as the boolean pass sees it. -/
structure SceneObj where
  name : String
  z : ℚ
  otype : String
deriving DecidableEq

/-- Default object (used only for indexed access inside proofs). -/
instance : Inhabited SceneObj := ⟨⟨"", 0, ""⟩⟩

/-- Ordering key of the sort: world z. -/
def objLE (a b : SceneObj) : Prop := a.z ≤ b.z

instance : DecidableRel objLE := fun a b => inferInstanceAs (Decidable (a.z ≤ b.z))

instance : IsTotal SceneObj objLE := ⟨fun a b => le_total a.z b.z⟩

instance : IsTrans SceneObj objLE := ⟨fun _ _ _ => le_trans⟩

/-- The ascending stable sort by world z (`placed_objects.sort(key=...)`). -/
def sortByZ (l : List SceneObj) : List SceneObj :=
  List.insertionSort objLE l

/-- Mesh restriction of the pass. -/
def isMesh (o : SceneObj) : Bool := o.otype == "MESH"

/-- The subtraction loop from iteration `i` with `k` iterations left: stops
at the first failing iteration (the exception leaves the loop); a completed
iteration records the target `ms[i]` with its cutters `ms[:i]`. -/
def cutLoop (ms : List SceneObj) (fails : Nat → Bool) :
    Nat → Nat → List (SceneObj × List SceneObj)
  | _, 0 => []
  | i, k + 1 =>
    if fails i then []
    else (ms.getD i default, ms.take i) :: cutLoop ms fails (i + 1) k

/-- Embedding of `importer._apply_boolean_cut`: sort ascending by z, restrict
to mesh objects, return early under two mesh objects, then run the loop from
the second mesh object on. -/
def apply_boolean_cut (objs : List SceneObj) (fails : Nat → Bool) :
    List (SceneObj × List SceneObj) :=
  if ((sortByZ objs).filter isMesh).length < 2 then []
  else
    cutLoop ((sortByZ objs).filter isMesh) fails 1
      (((sortByZ objs).filter isMesh).length - 1)

/-! ### Specification-side helpers

Functions the theorems use to state claimed properties (sums, last-wins,
products over the token groups of a transform string). -/

/-- Values of the `translate` tokens of a match list, in order. -/
def translates (ms : List (String × String)) : List (ℚ × ℚ) :=
  ms.filterMap (fun m => if m.1 = "translate" then translateTok m.2 else Option.none)

/-- Values of the `rotate` tokens of a match list, in order. -/
def rotates (ms : List (String × String)) : List ℚ :=
  ms.filterMap (fun m => if m.1 = "rotate" then rotateTok m.2 else Option.none)

/-- First-argument values of the `scale` tokens of a match list, in order. -/
def scales (ms : List (String × String)) : List ℚ :=
  ms.filterMap (fun m => if m.1 = "scale" then scaleTok m.2 else Option.none)

/-- A match that is one of the three recognized tokens with successfully
converted arguments. -/
def tokWellFormed (m : String × String) : Prop :=
  (m.1 = "translate" ∧ (translateTok m.2).isSome = true) ∨
  (m.1 = "rotate" ∧ (rotateTok m.2).isSome = true) ∨
  (m.1 = "scale" ∧ (scaleTok m.2).isSome = true)

instance : DecidablePred tokWellFormed := fun m => by
  unfold tokWellFormed
  infer_instance

/-- Component-wise sum of translation pairs on top of an optional start:
`None` with no pairs, otherwise the sum started from the pair (or `(0,0)`). -/
def accOptPair (o : Option (ℚ × ℚ)) (l : List (ℚ × ℚ)) : Option (ℚ × ℚ) :=
  match l with
  | [] => o
  | x :: xs => some ((x :: xs).foldl (fun a p => (a.1 + p.1, a.2 + p.2)) (o.getD (0, 0)))

/-- Last element of a list, else the optional start (last-writer-wins). -/
def lastOr (o : Option ℚ) (l : List ℚ) : Option ℚ :=
  match l.getLast? with
  | some a => some a
  | Option.none => o

/-- Product of scale factors on top of an optional start: `None` with no
factors, otherwise the product started from the factor (or `1`). -/
def accOptProd (o : Option ℚ) (l : List ℚ) : Option ℚ :=
  match l with
  | [] => o
  | x :: xs => some ((x :: xs).foldl (fun a v => a * v) (o.getD 1))

/-! ### Concrete fixtures used by witnesses and counterexamples -/

/-- Pin of the witness module: explicit x/y attributes. -/
def wPinGood : Element := Element.mk "pin" [("id", "1"), ("x", "10"), ("y", "20")] []

/-- Pin with no resolvable coordinates at all. -/
def wPinBad : Element := Element.mk "pin" [("id", "q")] []

/-- Witness module holding both pins. -/
def wModule : Element := Element.mk "module" [("id", "M1"), ("file", "res/part.obj")] [wPinGood, wPinBad]

/-- The record `wPinGood` resolves to. -/
def wPinRecord : PinRecord := ⟨"1", decimalToRat 10 0 0, decimalToRat 20 0 0, 0, Option.none⟩

/-- Module with explicit placement attributes and a transform attribute. -/
def wModuleT : Element :=
  Element.mk "module"
    [("id", "M"), ("file", "a/P.obj"), ("x", "1"), ("y", "2"), ("z", "3"),
     ("rotation", "45"), ("transform", "translate(3,4) rotate(90)")] []

/-- Pin with explicit coordinates and a transform attribute whose rotate and
scale parts must be ignored. -/
def wPinT : Element :=
  Element.mk "pin"
    [("x", "1"), ("y", "2"), ("transform", "translate(10,20) rotate(99) scale(5)")] []

/-- Module without a file reference (keeps its index but places nothing). -/
def wModSkip : Element := Element.mk "module" [] []

/-- Module at index 1 of the placement witness descriptor. -/
def wModPlace : Element :=
  Element.mk "module"
    [("file", "a/Part.OBJ"), ("x", "1"), ("y", "2"), ("z", "3"), ("rotation", "90")] []

/-- Placement witness descriptor root. -/
def wRoot : Element := Element.mk "root" [] [wModSkip, wModPlace]

/-- Model map of the placement witness: one key, two base handles. -/
def wModels : List (String × List String) := [("part.obj", ["h1", "h2"])]

/-- Match list of the transform-composition witness: two translations, two
rotations (the second with an ignored centre), two scales. -/
def wToks : List (String × String) :=
  [("translate", "1 2"), ("translate", "3,4"), ("rotate", "30"),
   ("rotate", "45 7 8"), ("scale", "2"), ("scale", "3,5")]

/-- Mesh object at z = 2. -/
def cObj0 : SceneObj := ⟨"a", 2, "MESH"⟩

/-- Mesh object at z = 0. -/
def cObj1 : SceneObj := ⟨"b", 0, "MESH"⟩

/-- Mesh object at z = 1. -/
def cObj2 : SceneObj := ⟨"c", 1, "MESH"⟩

/-! ## Theorems -/

/-- C2 (amended): `parse_position_string` fails exactly on a null input, a
conversion failure among the kept components, or fewer than two kept
components; two components yield `(x, y, 0)`; three OR MORE components yield
the first three (contrary to the claim, four or more components do not fail). -/
theorem c2_position_characterization :
    parse_position_string Option.none = Option.none ∧
    ∀ s : String,
      (parse_position_string (some s) = Option.none ↔
        (floatsOf (positionComponents s) = Option.none ∨
          ((floatsOf (positionComponents s)).getD []).length < 2)) ∧
      (∀ a b : ℚ, floatsOf (positionComponents s) = some [a, b] →
        parse_position_string (some s) = some (a, b, 0)) ∧
      (∀ (a b c : ℚ) (rest : List ℚ),
        floatsOf (positionComponents s) = some (a :: b :: c :: rest) →
        parse_position_string (some s) = some (a, b, c)) := by
  refine ⟨rfl, fun s => ⟨?_, ?_, ?_⟩⟩
  · cases h : floatsOf (positionComponents s) with
    | none => simp [parse_position_string, h]
    | some nums =>
      match nums with
      | [] => simp [parse_position_string, h]
      | [a] => simp [parse_position_string, h]
      | [a, b] => simp [parse_position_string, h]
      | a :: b :: c :: rest => simp [parse_position_string, h]
  · intro a b h
    simp [parse_position_string, h]
  · intro a b c rest h
    simp [parse_position_string, h]

/-- C2 (witness): the two-component string `"7, 8"` parses to the pair with a
zero z. -/
theorem c2_position_witness :
    parse_position_string (some "7, 8") = some (decimalToRat 7 0 0, decimalToRat 8 0 0, 0) :=
  ((c2_position_characterization.2 "7, 8").2.1 (decimalToRat 7 0 0) (decimalToRat 8 0 0)) rfl

/-- C2 (counterexample): a four-component input returns the first three
numbers, while the claim demands an absent result for any count other than
two or three. -/
theorem c2_counterexample_four_components :
    parse_position_string (some "1,2,3,4") = some (1, 2, 3) := by
  rw [show parse_position_string (some "1,2,3,4")
        = some (decimalToRat 1 0 0, decimalToRat 2 0 0, decimalToRat 3 0 0) from rfl]
  norm_num [decimalToRat]

/-- Evaluation of the translation accumulator on a present start value. -/
theorem accOptPair_some (v : ℚ × ℚ) (l : List (ℚ × ℚ)) :
    accOptPair (some v) l = some (l.foldl (fun a p => (a.1 + p.1, a.2 + p.2)) v) := by
  cases l <;> simp [accOptPair]

/-- Evaluation of the scale accumulator on a present start value. -/
theorem accOptProd_some (v : ℚ) (l : List ℚ) :
    accOptProd (some v) l = some (l.foldl (fun a x => a * x) v) := by
  cases l <;> simp [accOptProd]

/-- Pushing a new head into the last-writer accumulator. -/
theorem lastOr_some (a : ℚ) (o : Option ℚ) (l : List ℚ) :
    lastOr (some a) l = lastOr o (a :: l) := by
  cases l with
  | nil => simp [lastOr]
  | cons b l' =>
    cases h : (b :: l').getLast? with
    | none => exact absurd (List.getLast?_eq_none_iff.mp h) (by simp)
    | some c => simp [lastOr, List.getLast?_cons_cons, h]

/-- Characterization of the match-loop fold from an arbitrary start state:
translations accumulate, the last rotation wins, scales multiply, and tokens
whose conversion fails (or with unknown names) leave the state unchanged. -/
theorem foldl_applyTok_eq (ms : List (String × String)) :
    ∀ st : TransformResult,
      ms.foldl applyTok st =
        ⟨accOptPair st.translate (translates ms),
         lastOr st.rotate (rotates ms),
         accOptProd st.scale (scales ms)⟩ := by
  induction ms with
  | nil =>
    intro st
    simp [translates, rotates, scales, accOptPair, lastOr, accOptProd]
  | cons m ms ih =>
    intro st
    rw [List.foldl_cons, ih]
    by_cases h1 : m.1 = "translate"
    · have hr : rotates (m :: ms) = rotates ms := by
        simp [rotates, List.filterMap_cons, h1]
      have hs : scales (m :: ms) = scales ms := by
        simp [scales, List.filterMap_cons, h1]
      cases htok : translateTok m.2 with
      | none =>
        have hA : applyTok st m = st := by
          simp [applyTok, h1, htok]
        have ht : translates (m :: ms) = translates ms := by
          simp [translates, List.filterMap_cons, h1, htok]
        rw [hA, ht, hr, hs]
      | some xy =>
        obtain ⟨x, y⟩ := xy
        have ht : translates (m :: ms) = (x, y) :: translates ms := by
          simp [translates, List.filterMap_cons, h1, htok]
        rw [ht, hr, hs]
        cases hst : st.translate with
        | none =>
          have hA : applyTok st m = { st with translate := some (x, y) } := by
            simp [applyTok, h1, htok, hst]
          rw [hA]
          simp only [hst, accOptPair_some, accOptPair]
          rcases htm : translates ms with _ | ⟨p, ps⟩ <;> simp [htm]
        | some ab =>
          obtain ⟨a, b⟩ := ab
          have hA : applyTok st m = { st with translate := some (a + x, b + y) } := by
            simp [applyTok, h1, htok, hst]
          rw [hA]
          simp only [hst, accOptPair_some, accOptPair]
          rcases htm : translates ms with _ | ⟨p, ps⟩ <;> simp [htm]
    · by_cases h2 : m.1 = "rotate"
      · have ht : translates (m :: ms) = translates ms := by
          simp [translates, List.filterMap_cons, h2]
        have hs : scales (m :: ms) = scales ms := by
          simp [scales, List.filterMap_cons, h2]
        cases htok : rotateTok m.2 with
        | none =>
          have hA : applyTok st m = st := by
            simp [applyTok, h1, h2, htok]
          have hrr : rotates (m :: ms) = rotates ms := by
            simp [rotates, List.filterMap_cons, h2, htok]
          rw [hA, ht, hrr, hs]
        | some a =>
          have hA : applyTok st m = { st with rotate := some a } := by
            simp [applyTok, h1, h2, htok]
          have hrr : rotates (m :: ms) = a :: rotates ms := by
            simp [rotates, List.filterMap_cons, h2, htok]
          rw [hA, ht, hrr, hs]
          rw [show ({ st with rotate := some a } : TransformResult).rotate = some a from rfl,
            lastOr_some a st.rotate]
      · by_cases h3 : m.1 = "scale"
        · have ht : translates (m :: ms) = translates ms := by
            simp [translates, List.filterMap_cons, h3]
          have hrr : rotates (m :: ms) = rotates ms := by
            simp [rotates, List.filterMap_cons, h3]
          cases htok : scaleTok m.2 with
          | none =>
            have hA : applyTok st m = st := by
              simp [applyTok, h1, h2, h3, htok]
            have hs : scales (m :: ms) = scales ms := by
              simp [scales, List.filterMap_cons, h3, htok]
            rw [hA, ht, hrr, hs]
          | some sx =>
            have hs : scales (m :: ms) = sx :: scales ms := by
              simp [scales, List.filterMap_cons, h3, htok]
            rw [ht, hrr, hs]
            cases hst : st.scale with
            | none =>
              have hA : applyTok st m = { st with scale := some sx } := by
                simp [applyTok, h1, h2, h3, htok, hst]
              rw [hA]
              simp only [hst, accOptProd_some, accOptProd]
              rcases htm : scales ms with _ | ⟨p, ps⟩ <;> simp [htm]
            | some v =>
              have hA : applyTok st m = { st with scale := some (v * sx) } := by
                simp [applyTok, h1, h2, h3, htok, hst]
              rw [hA]
              simp only [hst, accOptProd_some, accOptProd]
              rcases htm : scales ms with _ | ⟨p, ps⟩ <;> simp [htm]
        · have hA : applyTok st m = st := by
            simp [applyTok, h1, h2, h3]
          have ht : translates (m :: ms) = translates ms := by
            simp [translates, List.filterMap_cons, h1]
          have hrr : rotates (m :: ms) = rotates ms := by
            simp [rotates, List.filterMap_cons, h2]
          have hs : scales (m :: ms) = scales ms := by
            simp [scales, List.filterMap_cons, h3]
          rw [hA, ht, hrr, hs]

/-- C3: for a transform string made of well-formed translate/rotate/scale
tokens, the result's translation is the component-wise sum of all translate
tokens (y defaulting to 0 in each), the rotation is the angle of the last
rotate token (earlier ones discarded, centres ignored), the scale is the
product of the first arguments of all scale tokens, and an absent or empty
input yields the all-`None` result. -/
theorem c3_transform_composition :
    parse_transform_string Option.none = ⟨Option.none, Option.none, Option.none⟩ ∧
    parse_transform_string (some "") = ⟨Option.none, Option.none, Option.none⟩ ∧
    ∀ ms : List (String × String), (∀ m ∈ ms, tokWellFormed m) →
      (foldTokens ms).translate = accOptPair Option.none (translates ms) ∧
      (foldTokens ms).rotate = lastOr Option.none (rotates ms) ∧
      (foldTokens ms).scale = accOptProd Option.none (scales ms) := by
  refine ⟨rfl, rfl, fun ms _ => ?_⟩
  rw [foldTokens, foldl_applyTok_eq]
  exact ⟨rfl, rfl, rfl⟩

/-- C3 (witness): the composition law evaluated on a concrete well-formed
match list with repeated tokens of every kind. -/
theorem c3_transform_witness :
    (foldTokens wToks).translate = accOptPair Option.none (translates wToks) ∧
    (foldTokens wToks).rotate = lastOr Option.none (rotates wToks) ∧
    (foldTokens wToks).scale = accOptProd Option.none (scales wToks) :=
  c3_transform_composition.2.2 wToks (by decide)

/-- C5: whenever the external XML parse raises `ParseError`, the descriptor
parse returns an absent result (never a partial tree, never an escaping
exception), and module extraction returns the empty list. -/
theorem c5_malformed_xml_absent :
    ∀ (fromstring : String → Except ParseFailure Element) (text : String)
      (e : ParseFailure), fromstring text = Except.error e →
      parse_fzp_xml_string fromstring text = Option.none ∧
      extract_modules_and_pins fromstring text = [] := by
  intro fs text e h
  refine ⟨?_, ?_⟩
  · simp [parse_fzp_xml_string, h]
  · simp [extract_modules_and_pins, parse_fzp_xml_string, h]

/-- C5 (witness): a parser that rejects the text yields `None` and the empty
module list. -/
theorem c5_malformed_xml_witness :
    parse_fzp_xml_string (fun _ => Except.error ⟨"syntax error"⟩) "<module" = Option.none ∧
    extract_modules_and_pins (fun _ => Except.error ⟨"syntax error"⟩) "<module" = [] :=
  c5_malformed_xml_absent (fun _ => Except.error ⟨"syntax error"⟩) "<module" ⟨"syntax error"⟩ rfl

/-- C7: a module's pin sequence is the pooled concatenation of the resolved
`pin` elements, then the `pad` elements, then the `connector` elements, each
group in document order — never interleaved across tags. -/
theorem c7_pooled_pin_order :
    ∀ m : Element,
      (moduleOf m).pins =
        (findall m "pin").filterMap resolvePin ++
          (findall m "pad").filterMap resolvePin ++
          (findall m "connector").filterMap resolvePin := by
  intro m
  simp [moduleOf, modulePins, pinCandidates, List.filterMap_append]

/-- C6: a truthy `transform` attribute on a module adds its cumulative
translation to the position resolved from attributes, position string or
nested child, and its rotation (when present) replaces — does not compose
with — the rotation resolved from the `rotation`/`angle` attributes; on a
pin, a truthy `transform` attribute contributes only its cumulative
translation, and the rotate and scale parts of the transform string never
reach the pin record (its rotation comes from the `rotation`/`angle`
attributes alone). -/
theorem c6_transform_translate_and_override :
    (∀ (e : Element) (x y z : ℚ) (r : Option ℚ) (ts : String),
        moduleBase e = some ((x, y, z), r) →
        e.get "transform" = some ts → ts ≠ "" →
        get_transform_from_module e =
          some ((x + ((parse_transform_string (some ts)).translate.getD (0, 0)).1,
                 y + ((parse_transform_string (some ts)).translate.getD (0, 0)).2, z),
                match (parse_transform_string (some ts)).rotate with
                | some a => some a
                | Option.none => r)) ∧
    (∀ (e : Element) (a b c : ℚ) (ts : String),
        pinFloats e = (some a, some b, c) →
        e.get "transform" = some ts → ts ≠ "" →
        resolvePin e =
          some ⟨pinId e,
                a + ((parse_transform_string (some ts)).translate.getD (0, 0)).1,
                b + ((parse_transform_string (some ts)).translate.getD (0, 0)).2,
                c, pinRotation e⟩) := by
  constructor
  · intro e x y z r ts hbase hget hne
    have htr : truthyS (e.get "transform") = true := by
      rw [hget]; simp [truthyS, hne]
    rw [get_transform_from_module, hbase, Option.map_some']
    rcases h1 : (parse_transform_string (some ts)).translate with _ | ⟨tx, ty⟩ <;>
      rcases h2 : (parse_transform_string (some ts)).rotate with _ | a <;>
        simp [applyTransformAttr, truthyS, hne, hget, h1, h2]
  · intro e a b c ts hflo hget hne
    have htr : truthyS (e.get "transform") = true := by
      rw [hget]; simp [truthyS, hne]
    have hpt : pinWithTransform e =
        (some (a + ((parse_transform_string (some ts)).translate.getD (0, 0)).1),
         some (b + ((parse_transform_string (some ts)).translate.getD (0, 0)).2), c) := by
      rw [pinWithTransform, hflo]
      rcases h1 : (parse_transform_string (some ts)).translate with _ | ⟨tx, ty⟩ <;>
        simp [pinApplyTransform, truthyS, hne, hget, h1]
    simp [resolvePin, hpt]

/-- C6 (witness): the transform law evaluated on a module carrying explicit
coordinates, an attribute rotation of 45 and transform
`translate(3,4) rotate(90)`, and on a pin carrying explicit coordinates and
transform `translate(10,20) rotate(99) scale(5)`. -/
theorem c6_transform_witness :
    get_transform_from_module wModuleT =
      some ((decimalToRat 1 0 0 +
              ((parse_transform_string (some "translate(3,4) rotate(90)")).translate.getD (0, 0)).1,
             decimalToRat 2 0 0 +
              ((parse_transform_string (some "translate(3,4) rotate(90)")).translate.getD (0, 0)).2,
             decimalToRat 3 0 0),
            match (parse_transform_string (some "translate(3,4) rotate(90)")).rotate with
            | some a => some a
            | Option.none => some (decimalToRat 45 0 0)) ∧
    resolvePin wPinT =
      some ⟨pinId wPinT,
            decimalToRat 1 0 0 +
              ((parse_transform_string
                  (some "translate(10,20) rotate(99) scale(5)")).translate.getD (0, 0)).1,
            decimalToRat 2 0 0 +
              ((parse_transform_string
                  (some "translate(10,20) rotate(99) scale(5)")).translate.getD (0, 0)).2,
            0, pinRotation wPinT⟩ :=
  ⟨c6_transform_translate_and_override.1 wModuleT (decimalToRat 1 0 0) (decimalToRat 2 0 0)
      (decimalToRat 3 0 0) (some (decimalToRat 45 0 0)) "translate(3,4) rotate(90)"
      rfl rfl (by decide),
   c6_transform_translate_and_override.2 wPinT (decimalToRat 1 0 0) (decimalToRat 2 0 0) 0
      "translate(10,20) rotate(99) scale(5)" rfl rfl (by decide)⟩

/-- C8: a pin-like element whose x or y does not resolve to a number through
any fallback path contributes no record (dropped without error), and every
record in a module's pin list stems from an element whose resolution
produced the record's fully numeric coordinate triple. -/
theorem c8_unresolvable_pin_dropped :
    (∀ e : Element,
        (pinFloats e).1 = Option.none ∨ (pinFloats e).2.1 = Option.none →
        resolvePin e = Option.none) ∧
    (∀ (m : Element) (p : PinRecord), p ∈ (moduleOf m).pins →
        ∃ e ∈ pinCandidates m,
          resolvePin e = some p ∧
          pinWithTransform e = (some p.px, some p.py, p.pz)) := by
  constructor
  · intro e h
    rcases hpf : pinFloats e with ⟨fx, fy, fz⟩
    rw [hpf] at h
    cases fx with
    | none => cases fy <;> simp [resolvePin, pinWithTransform, pinApplyTransform, hpf]
    | some a =>
      cases fy with
      | none => simp [resolvePin, pinWithTransform, pinApplyTransform, hpf]
      | some b => simp at h
  · intro m p hp
    rw [show (moduleOf m).pins = (pinCandidates m).filterMap resolvePin from rfl,
      List.mem_filterMap] at hp
    obtain ⟨e, he, hres⟩ := hp
    refine ⟨e, he, hres, ?_⟩
    rcases hpt : pinWithTransform e with ⟨fx, fy, fz⟩
    rw [show resolvePin e =
          (match pinWithTransform e with
           | (some a, some b, c) => some ⟨pinId e, a, b, c, pinRotation e⟩
           | _ => Option.none) from rfl, hpt] at hres
    cases fx with
    | none => simp at hres
    | some a =>
      cases fy with
      | none => simp at hres
      | some b =>
        simp only [Option.some.injEq] at hres
        rw [← hres]

/-- C8 (witness): a pin with no resolvable coordinates is dropped, while the
resolvable pin of the same module appears with its numeric triple. -/
theorem c8_unresolvable_pin_witness :
    resolvePin wPinBad = Option.none ∧
    ∃ e ∈ pinCandidates wModule,
      resolvePin e = some wPinRecord ∧
      pinWithTransform e = (some wPinRecord.px, some wPinRecord.py, wPinRecord.pz) :=
  ⟨c8_unresolvable_pin_dropped.1 wPinBad (Or.inl rfl),
   c8_unresolvable_pin_dropped.2 wModule wPinRecord
     (by rw [show (moduleOf wModule).pins = [wPinRecord] from rfl]
         exact List.mem_singleton_self _)⟩

/-- With nonnegative step parameters the clamped step is exactly
`max (z_step * placement_scale) min_z_step` (the operator properties bound
all three from below by zero). -/
theorem stepVal_eq_max (t s m : ℚ) (ht : 0 ≤ t) (hs : 0 ≤ s) (hm : 0 ≤ m) :
    stepVal t s m false = max (t * s) m := by
  unfold stepVal
  by_cases h0 : m = 0
  · subst h0
    simp [max_eq_left (mul_nonneg ht hs)]
  · by_cases hlt : t * s < m
    · simp [h0, hlt, max_eq_right (le_of_lt hlt)]
    · simp [h0, hlt, max_eq_left (not_lt.mp hlt)]

/-- Every placement a module contributes carries that module's index. -/
theorem placeModule_moduleIdx {models svgs : List (String × List String)}
    {s t m : ℚ} {b : Bool} {i : Nat} {e : Element} {p : Placement}
    (hp : p ∈ placeModule models svgs s t m b i e) : p.moduleIdx = i := by
  unfold placeModule at hp
  split at hp
  · exact absurd hp (List.not_mem_nil p)
  · split at hp
    · exact absurd hp (List.not_mem_nil p)
    · split at hp
      · exact absurd hp (List.not_mem_nil p)
      · split at hp
        · exact absurd hp (List.not_mem_nil p)
        · obtain ⟨bi, _, rfl⟩ := List.mem_map.mp hp
          rfl

/-- Indices in the placement loop only grow. -/
theorem placeList_idx_ge {models svgs : List (String × List String)}
    {s t m : ℚ} {b : Bool} :
    ∀ (l : List Element) (k : Nat) (p : Placement),
      p ∈ placeList models svgs s t m b k l → k ≤ p.moduleIdx := by
  intro l
  induction l with
  | nil => intro k p hp; simp [placeList] at hp
  | cons e rest ih =>
    intro k p hp
    rw [placeList] at hp
    rcases List.mem_append.mp hp with h | h
    · exact le_of_eq (placeModule_moduleIdx h).symm
    · exact le_trans (Nat.le_succ k) (ih (k + 1) p h)

/-- Restricting the placement list to one module index yields exactly that
module's contribution (indices are assigned by `enumerate` over all modules,
so they are unique). -/
theorem placeList_filter {models svgs : List (String × List String)}
    {s t m : ℚ} {b : Bool} :
    ∀ (l : List Element) (k idx : Nat) (mod : Element), k ≤ idx →
      l[idx - k]? = some mod →
      (placeList models svgs s t m b k l).filter (fun p => p.moduleIdx == idx) =
        placeModule models svgs s t m b idx mod := by
  intro l
  induction l with
  | nil => intro k idx mod hk h; simp at h
  | cons e rest ih =>
    intro k idx mod hk h
    rw [placeList, List.filter_append]
    by_cases hki : k = idx
    · subst hki
      rw [Nat.sub_self, List.getElem?_cons_zero, Option.some.injEq] at h
      subst h
      have h1 : (placeModule models svgs s t m b k e).filter
          (fun p => p.moduleIdx == k) = placeModule models svgs s t m b k e :=
        List.filter_eq_self.mpr (fun p hp => by
          simp [placeModule_moduleIdx hp])
      have h2 : (placeList models svgs s t m b (k + 1) rest).filter
          (fun p => p.moduleIdx == k) = [] :=
        List.filter_eq_nil_iff.mpr (fun p hp => by
          have := placeList_idx_ge rest (k + 1) p hp
          simp only [beq_iff_eq]
          omega)
      rw [h1, h2, List.append_nil]
    · have hk1 : k + 1 ≤ idx := Nat.succ_le_of_lt (Nat.lt_of_le_of_ne hk hki)
      have hidx : idx - k = (idx - (k + 1)) + 1 := by omega
      rw [hidx, List.getElem?_cons_succ] at h
      have h1 : (placeModule models svgs s t m b k e).filter
          (fun p => p.moduleIdx == idx) = [] :=
        List.filter_eq_nil_iff.mpr (fun p hp => by
          have := placeModule_moduleIdx hp
          simp only [beq_iff_eq]
          omega)
      rw [h1, List.nil_append]
      exact ih (k + 1) idx mod hk1 h

/-- C1: in a zip import with placement enabled, non-Blender-unit z stepping
and nonnegative `placement_scale = s`, `z_step = t`, `min_z_step = m` (the
operator bounds all three by `min=0`), a module at enumerate index `idx`
(counted over all modules, never renumbered) with resolved transform
z-component `z0` and a nonempty base-geometry match contributes exactly one
instance per base handle, the instance for handle `bi` placed at world z
`z0*s + (idx + bi) * max (t*s) m` — so with exactly one handle, at
`z0*s + idx * max (t*s) m`. -/
theorem c1_z_stacking :
    ∀ (root : Element) (models svgs : List (String × List String)) (s t m : ℚ),
      0 ≤ s → 0 ≤ t → 0 ≤ m →
      ∀ (idx : Nat) (mod : Element) (x0 y0 z0 : ℚ) (r : Option ℚ) (hl : List String),
        (findall root "module")[idx]? = some mod →
        truthyS (strOr (mod.get "file") (mod.get "url")) = true →
        get_transform_from_module mod = some ((x0, y0, z0), r) →
        listOr (lastBinding2 models (moduleKey mod)) (lastBinding2 svgs (moduleKey mod)) =
          some hl →
        hl ≠ [] →
        (placeFromRoot root models svgs s t m false).filter (fun p => p.moduleIdx == idx) =
          (List.range hl.length).map (fun bi =>
            ⟨idx, bi, moduleKey mod,
             (x0 * s, y0 * s, z0 * s + ((idx : ℚ) + (bi : ℚ)) * max (t * s) m), r⟩) := by
  intro root models svgs s t m hs ht hm idx mod x0 y0 z0 r hl hidx hfa htrans hlook hne
  rw [placeFromRoot, placeList_filter _ 0 idx mod (Nat.zero_le idx) hidx]
  unfold placeModule
  rw [hfa, htrans, hlook]
  have hlE : hl.isEmpty = false := by
    cases hl with
    | nil => exact absurd rfl hne
    | cons a l => rfl
  simp only [Bool.not_true, Bool.false_eq_true, if_false, hlE]
  refine List.map_congr_left (fun bi _ => ?_)
  rw [stepVal_eq_max t s m ht hs hm]
  have hz : z0 * s + (idx : ℚ) * max (t * s) m + (bi : ℚ) * max (t * s) m =
      z0 * s + ((idx : ℚ) + (bi : ℚ)) * max (t * s) m := by ring
  rw [hz]

/-- C1 (witness): a descriptor whose second module (index 1, after a module
with no file reference at index 0) matches two base handles; with
`placement_scale = 2`, `z_step = 3`, `min_z_step = 100` both instances land
at the claimed z values. -/
theorem c1_z_stacking_witness :
    (placeFromRoot wRoot wModels [] 2 3 100 false).filter (fun p => p.moduleIdx == 1) =
      (List.range (["h1", "h2"] : List String).length).map (fun bi =>
        ⟨1, bi, moduleKey wModPlace,
         (decimalToRat 1 0 0 * 2, decimalToRat 2 0 0 * 2,
          decimalToRat 3 0 0 * 2 + ((1 : ℚ) + (bi : ℚ)) * max ((3 : ℚ) * 2) 100),
         some (decimalToRat 90 0 0)⟩) :=
  c1_z_stacking wRoot wModels [] 2 3 100 (by norm_num) (by norm_num) (by norm_num)
    1 wModPlace (decimalToRat 1 0 0) (decimalToRat 2 0 0) (decimalToRat 3 0 0)
    (some (decimalToRat 90 0 0)) ["h1", "h2"] rfl rfl rfl rfl (by decide)

/-- C9: every archive operation on a path that is not a valid zip raises an
explicit error rather than returning an empty or partial result, and listing
a valid zip returns every entry name. -/
theorem c9_archive_errors :
    (∀ exts : List String,
      extract_files_by_extensions Option.none exts = Except.error ⟨"Not a zip file"⟩) ∧
    list_zip_contents Option.none = Except.error ⟨"Not a zip file"⟩ ∧
    (∀ (fromstring : String → Except ParseFailure Element)
       (hostModel hostSvg : String → List String) (up : Bool) (s t m : ℚ) (b : Bool),
      import_fzp_from_zip fromstring hostModel hostSvg Option.none up s t m b =
        Except.error ⟨"Not a zip archive"⟩) ∧
    (∀ z : ZipArchive, list_zip_contents (some z) = Except.ok (z.map (fun e => e.1))) :=
  ⟨fun _ => rfl, rfl, fun _ _ _ _ _ _ _ _ => rfl, fun _ => rfl⟩

/-- The subtraction loop is the prefix of planned subtractions up to (and
excluding) the first failing iteration. -/
theorem cutLoop_eq (ms : List SceneObj) (fails : Nat → Bool) :
    ∀ (k i : Nat),
      cutLoop ms fails i k =
        ((List.range' i k).takeWhile (fun j => !fails j)).map
          (fun j => (ms.getD j default, ms.take j)) := by
  intro k
  induction k with
  | zero => intro i; rfl
  | succ n ih =>
    intro i
    by_cases hf : fails i <;>
      simp [cutLoop, hf, List.range'_succ, List.takeWhile_cons, ih]

/-- C4 (amended): the boolean pass sorts ascending by world z, restricts to
mesh instances, and performs the planned subtractions (each target with the
merged copy of all mesh instances below it) only up to the first failure —
one failing subtraction aborts every remaining subtraction of the pass (the
exception is caught outside the loop), though the function itself returns
normally so the rest of the import continues. -/
theorem c4_boolean_pass_amended :
    ∀ (objs : List SceneObj) (fails : Nat → Bool),
      List.Sorted objLE (sortByZ objs) ∧
      (sortByZ objs).Perm objs ∧
      apply_boolean_cut objs fails =
        ((List.range' 1 (((sortByZ objs).filter isMesh).length - 1)).takeWhile
            (fun i => !fails i)).map
          (fun i => (((sortByZ objs).filter isMesh).getD i default,
                     ((sortByZ objs).filter isMesh).take i)) := by
  intro objs fails
  refine ⟨List.sorted_insertionSort objLE objs, List.perm_insertionSort objLE objs, ?_⟩
  rw [apply_boolean_cut]
  by_cases h2 : ((sortByZ objs).filter isMesh).length < 2
  · rw [if_pos h2]
    have h0 : ((sortByZ objs).filter isMesh).length - 1 = 0 := by omega
    rw [h0]
    rfl
  · rw [if_neg h2, cutLoop_eq]

/-- C4 (counterexample): three mesh instances whose host fails only the first
subtraction (iteration 1); the claim demands that the remaining target still
be processed, but the pass performs no subtraction at all. -/
theorem c4_counterexample_abort :
    apply_boolean_cut [cObj0, cObj1, cObj2] (fun i => i == 1) = [] ∧
    ((sortByZ [cObj0, cObj1, cObj2]).filter isMesh).length = 3 := by
  exact ⟨rfl, rfl⟩

/-- The extraction fold appends one mapping binding and one scratch write per
matching entry, in archive order. -/
theorem extractState_eq (z : ZipArchive) (exts : List String) :
    extractState z exts =
      ((z.filter (fun e => matchesExt exts e.1)).map (fun e => (e.1, pyBasename e.1)),
       (z.filter (fun e => matchesExt exts e.1)).map (fun e => (pyBasename e.1, e.2))) := by
  suffices h : ∀ (l : ZipArchive) (acc1 acc2 : List (String × String)),
      l.foldl
        (fun st entry =>
          if matchesExt exts entry.1 then
            (st.1 ++ [(entry.1, pyBasename entry.1)], st.2 ++ [(pyBasename entry.1, entry.2)])
          else st)
        (acc1, acc2) =
        (acc1 ++ (l.filter (fun e => matchesExt exts e.1)).map (fun e => (e.1, pyBasename e.1)),
         acc2 ++ (l.filter (fun e => matchesExt exts e.1)).map (fun e => (pyBasename e.1, e.2))) by
    simpa [extractState] using h z [] []
  intro l
  induction l with
  | nil => intro acc1 acc2; simp
  | cons e rest ih =>
    intro acc1 acc2
    by_cases he : matchesExt exts e.1 <;>
      simp [List.foldl_cons, he, ih, List.filter_cons]

/-- Lookup in an association log whose bindings for the key all carry the
same value. -/
theorem lastBinding_const (d : List (String × String)) (k v : String)
    (hex : ∃ p ∈ d, p.1 = k) (hall : ∀ p ∈ d, p.1 = k → p.2 = v) :
    lastBinding d k = some v := by
  unfold lastBinding
  obtain ⟨p, hpmem, hpk⟩ := hex
  have h1 : ∃ q ∈ d.reverse, (fun q : String × String => q.1 == k) q = true :=
    ⟨p, List.mem_reverse.mpr hpmem, by simp [hpk]⟩
  obtain ⟨q, hq⟩ := Option.isSome_iff_exists.mp (List.find?_isSome.mpr h1)
  rw [hq]
  have hqmem : q ∈ d := List.mem_reverse.mp (List.mem_of_find?_eq_some hq)
  have hqk : q.1 = k := by simpa using List.find?_some hq
  simp [hall q hqmem hqk]

/-- Reading an association log at a key whose last binding is explicit. -/
theorem lastBinding_append_last (A B : List (String × String)) (k v : String)
    (hB : ∀ p ∈ B, p.1 ≠ k) :
    lastBinding (A ++ (k, v) :: B) k = some v := by
  unfold lastBinding
  rw [List.reverse_append,
    show ((k, v) :: B).reverse = B.reverse ++ [(k, v)] from by simp,
    List.append_assoc, List.find?_append]
  have hnone : B.reverse.find? (fun q : String × String => q.1 == k) = Option.none :=
    List.find?_eq_none.mpr (fun p hp => by
      simpa using hB p (List.mem_reverse.mp hp))
  rw [hnone]
  simp

/-- C10: two matching archive entries in different folders with the same
basename both appear as keys of the returned mapping, both map to the same
extracted destination, and the scratch file at that destination ends holding
the content of the later entry (the earlier extraction is overwritten). -/
theorem c10_shared_basename_overwrite :
    ∀ (pre mid post : ZipArchive) (n1 n2 c1v c2v : String) (exts : List String),
      matchesExt exts n1 = true → matchesExt exts n2 = true →
      pyBasename n1 = pyBasename n2 → n1 ≠ n2 →
      (∀ e ∈ post, matchesExt exts e.1 = true → pyBasename e.1 ≠ pyBasename n2) →
      extract_files_by_extensions (some (pre ++ (n1, c1v) :: mid ++ (n2, c2v) :: post)) exts =
          Except.ok (extractState (pre ++ (n1, c1v) :: mid ++ (n2, c2v) :: post) exts) ∧
      lastBinding (extractState (pre ++ (n1, c1v) :: mid ++ (n2, c2v) :: post) exts).1 n1 =
          some (pyBasename n1) ∧
      lastBinding (extractState (pre ++ (n1, c1v) :: mid ++ (n2, c2v) :: post) exts).1 n2 =
          some (pyBasename n1) ∧
      lastBinding (extractState (pre ++ (n1, c1v) :: mid ++ (n2, c2v) :: post) exts).2
          (pyBasename n1) = some c2v := by
  intro pre mid post n1 n2 c1v c2v exts h1 h2 hb hne hpost
  have hfil : (pre ++ (n1, c1v) :: mid ++ (n2, c2v) :: post).filter
      (fun e => matchesExt exts e.1) =
      pre.filter (fun e => matchesExt exts e.1) ++
        (n1, c1v) :: (mid.filter (fun e => matchesExt exts e.1) ++
          (n2, c2v) :: post.filter (fun e => matchesExt exts e.1)) := by
    simp [List.filter_append, List.filter_cons, h1, h2]
  refine ⟨rfl, ?_, ?_, ?_⟩
  · rw [extractState_eq]
    refine lastBinding_const _ n1 (pyBasename n1) ?_ ?_
    · refine ⟨(n1, pyBasename n1), ?_, rfl⟩
      exact List.mem_map.mpr ⟨(n1, c1v), by rw [hfil]; simp, rfl⟩
    · intro p hp hpk
      obtain ⟨q, _, rfl⟩ := List.mem_map.mp hp
      simpa [hpk] using congrArg pyBasename hpk
  · rw [extractState_eq]
    refine lastBinding_const _ n2 (pyBasename n1) ?_ ?_
    · refine ⟨(n2, pyBasename n2), ?_, rfl⟩
      exact List.mem_map.mpr ⟨(n2, c2v), by rw [hfil]; simp, rfl⟩
    · intro p hp hpk
      obtain ⟨q, _, rfl⟩ := List.mem_map.mp hp
      rw [hb]
      simpa [hpk] using congrArg pyBasename hpk
  · have hB : ∀ p ∈ (post.filter (fun e => matchesExt exts e.1)).map
        (fun e => (pyBasename e.1, e.2)), p.1 ≠ pyBasename n2 := by
      intro p hp
      obtain ⟨q, hq, rfl⟩ := List.mem_map.mp hp
      have hqf := List.mem_filter.mp hq
      exact hpost q hqf.1 hqf.2
    have hL : (extractState (pre ++ (n1, c1v) :: mid ++ (n2, c2v) :: post) exts).2 =
        ((pre.filter (fun e => matchesExt exts e.1)).map (fun e => (pyBasename e.1, e.2)) ++
          (pyBasename n1, c1v) ::
            (mid.filter (fun e => matchesExt exts e.1)).map (fun e => (pyBasename e.1, e.2))) ++
          (pyBasename n2, c2v) ::
            (post.filter (fun e => matchesExt exts e.1)).map (fun e => (pyBasename e.1, e.2)) := by
      rw [extractState_eq, hfil]
      simp
    rw [hL, hb]
    exact lastBinding_append_last _ _ (pyBasename n2) c2v hB

/-- C10 (witness): a concrete archive holding `a/f.obj` then `b/f.obj` (plus
a non-matching entry between and an unrelated matching entry after): both
names map to the destination `f.obj`, whose final content is that of
`b/f.obj`. -/
theorem c10_shared_basename_witness :
    extract_files_by_extensions
        (some ([] ++ ("a/f.obj", "c1") :: [("x/skip.txt", "m")] ++
          ("b/f.obj", "c2") :: [("y/other.obj", "o")])) [".obj"] =
      Except.ok (extractState ([] ++ ("a/f.obj", "c1") :: [("x/skip.txt", "m")] ++
          ("b/f.obj", "c2") :: [("y/other.obj", "o")]) [".obj"]) ∧
    lastBinding (extractState ([] ++ ("a/f.obj", "c1") :: [("x/skip.txt", "m")] ++
        ("b/f.obj", "c2") :: [("y/other.obj", "o")]) [".obj"]).1 "a/f.obj" =
      some (pyBasename "a/f.obj") ∧
    lastBinding (extractState ([] ++ ("a/f.obj", "c1") :: [("x/skip.txt", "m")] ++
        ("b/f.obj", "c2") :: [("y/other.obj", "o")]) [".obj"]).1 "b/f.obj" =
      some (pyBasename "a/f.obj") ∧
    lastBinding (extractState ([] ++ ("a/f.obj", "c1") :: [("x/skip.txt", "m")] ++
        ("b/f.obj", "c2") :: [("y/other.obj", "o")]) [".obj"]).2
      (pyBasename "a/f.obj") = some "c2" :=
  c10_shared_basename_overwrite [] [("x/skip.txt", "m")] [("y/other.obj", "o")]
    "a/f.obj" "b/f.obj" "c1" "c2" [".obj"]
    (by decide) (by decide) (by decide) (by decide) (by decide)

end Fzp
